import Mathlib

/-!
Shallow embedding of `src/Bratu/VectorizedGapToothPITimestepper.py`.

The numpy 2D array `U[k, j]` (tooth index `k`, micro index `j`) is embedded
as a total function `Grid = ℕ → ℕ → ℚ` together with its shape `(t, m)`
passed explicitly, mirroring the information numpy stores in `U.shape`.
Floating-point arithmetic is idealised as exact rational arithmetic, and
`np.exp` is kept opaque as a function parameter `expf : ℚ → ℚ`: none of the
verified claims depends on values of the exponential.  The external module
`RBF` (imported by the source but not present under `src/`) is likewise
abstracted: the slope estimator appears only through its contract, as an
opaque function from the current state to a pair of slope arrays.
-/

/-- A patch-set state: field values indexed by tooth index and micro index.
Shape information (number of teeth `t`, micro points per tooth `m`) is passed
separately to each operation, mirroring `U.shape` in the source. -/
abbrev Grid := ℕ → ℕ → ℚ

/-- Model parameters: the params dictionary from the source, holding the
single reaction-rate constant lambda. -/
structure BratuParams where
  lam : ℚ

/-- Pointwise equality of two grids on the array domain of shape `(t, m)`.
Two numpy arrays of this shape are equal exactly when this holds. -/
def gridEqOn (t m : ℕ) (U V : Grid) : Prop :=
  ∀ k, k < t → ∀ j, j < m → U k j = V k j

/-- Python slice `u[a : b]` for `a ≤ b`: drop `a` elements then take
`b - a`, clamped at the end of the list exactly as Python slicing is. -/
def pySlice (u : List ℚ) (a b : ℕ) : List ℚ := (u.drop a).take (b - a)

/-- Source toPatch: cut the flat vector `u` into
`len(x_plot_array)` consecutive blocks `u[i*length:(i+1)*length]`, where
`length = len(x_plot_array[0])`. -/
def toPatch (x_plot_array : List (List ℚ)) (u : List ℚ) : List (List ℚ) :=
  (List.range x_plot_array.length).map
    (fun i => pySlice u (i * x_plot_array.headI.length)
      ((i + 1) * x_plot_array.headI.length))

/-- One block of the buffer written by `toNumpyArray`: the slot
`u[i*L:(i+1)*L]` of the zero-initialised output after the numpy assignment
`u[i*L:(i+1)*L] = u_patch[i]`.  numpy raises on a length mismatch, so on the
valid (uniform-length) domain this is exactly `u_patch[i]`; the total model
truncates or keeps the allocated zeros otherwise. -/
def npBlock (L : ℕ) (l : List ℚ) : List ℚ := l.take L ++ List.replicate (L - l.length) 0

/-- Source toNumpyArray: allocate
`np.zeros(len(u_patch) * length)` with `length = u_patch[0].size` and write
each patch into its slot `u[i*length:(i+1)*length]`. -/
def toNumpyArray (u_patch : List (List ℚ)) : List ℚ :=
  u_patch.flatMap (npBlock u_patch.headI.length)

/-- Source rhs_vectorised: central Laplacian via
the periodic `np.roll` shift stencil along the micro axis, plus the reaction
term `lambda * exp(U)`.  `np.roll(U, -1, axis=1)[k, j] = U[k, (j+1) % m]`
and `np.roll(U, 1, axis=1)[k, j] = U[k, (j-1) % m]`; the second index is
written `(j + m - 1) % m`, which agrees with `(j-1) mod m` on `j < m`. -/
def rhs_vectorised (expf : ℚ → ℚ) (m : ℕ) (U : Grid) (dx : ℚ) (p : BratuParams) : Grid :=
  fun k j =>
    (U k ((j + 1) % m) - 2 * U k j + U k ((j + m - 1) % m)) / dx ^ 2
      + p.lam * expf (U k j)

/-- The assignments `U_new[0, 0] = 0.0` and `U_new[-1, -1] = 0.0` from the
source, as one update: the second write wins on overlap (both write `0`). -/
def bcDirichlet (t m : ℕ) (U : Grid) : Grid := fun k j =>
  if k = t - 1 ∧ j = m - 1 then 0
  else if k = 0 ∧ j = 0 then 0
  else U k j

/-- The assignment `U_new[1:, 0] = U_new[1:, 1] - left_slope[1:] * dx`,
guarded by `n_teeth > 1`; the right-hand side reads the state after the
Dirichlet writes, as numpy evaluates it before assigning. -/
def bcNeumannLeft (t : ℕ) (dx : ℚ) (ls : ℕ → ℚ) (U : Grid) : Grid := fun k j =>
  if 1 < t ∧ 1 ≤ k ∧ k < t ∧ j = 0 then U k 1 - ls k * dx else U k j

/-- The assignment `U_new[:-1, -1] = U_new[:-1, -2] + right_slope[:-1] * dx`,
guarded by `n_teeth > 1`; the right-hand side reads the state after the
Dirichlet and left-edge writes. -/
def bcNeumannRight (t m : ℕ) (dx : ℚ) (rs : ℕ → ℚ) (U : Grid) : Grid := fun k j =>
  if 1 < t ∧ k < t - 1 ∧ j = m - 1 then U k (m - 2) + rs k * dx else U k j

/-- The boundary-condition block shared by `euler_step` (lines 50-55) and
`projective_microcycle` (lines 77-82): the four sequential numpy
assignments, in source order. -/
def applyBCs (t m : ℕ) (dx : ℚ) (ls rs : ℕ → ℚ) (U : Grid) : Grid :=
  bcNeumannRight t m dx rs (bcNeumannLeft t dx ls (bcDirichlet t m U))

/-- Source euler_step:
`U_new = U + dt * rhs_vectorised(U, dx, params)` followed by the
boundary-condition block. -/
def euler_step (expf : ℚ → ℚ) (t m : ℕ) (U : Grid) (dx dt : ℚ)
    (ls rs : ℕ → ℚ) (p : BratuParams) : Grid :=
  applyBCs t m dx ls rs (fun k j => U k j + dt * rhs_vectorised expf m U dx p k j)

/-- Source projective_microcycle: `K - 1` Euler steps in a loop, one more Euler step keeping
`U_prev` and the new state, then the projective extrapolation
`U + (Dt - K*dt) * (U - U_prev) / dt`, and the boundary-condition block
re-applied with the same slopes. -/
def projective_microcycle (expf : ℚ → ℚ) (t m : ℕ) (U : Grid) (dx dt Dt : ℚ)
    (K : ℕ) (ls rs : ℕ → ℚ) (p : BratuParams) : Grid :=
  let U1 := (List.range (K - 1)).foldl (fun V _ => euler_step expf t m V dx dt ls rs p) U
  let U_prev := U1
  let U_last := euler_step expf t m U1 dx dt ls rs p
  applyBCs t m dx ls rs
    (fun k j => U_last k j + (Dt - (K : ℚ) * dt) * ((U_last k j - U_prev k j) / dt))

/-- Embedding of int applied to np.round on an exact rational: round half to even
(numpy rounding), then conversion to an integer, which is exact. -/
def np_round (x : ℚ) : ℤ :=
  if x - ⌊x⌋ < 1 / 2 then ⌊x⌋
  else if 1 / 2 < x - ⌊x⌋ then ⌊x⌋ + 1
  else if ⌊x⌋ % 2 = 0 then ⌊x⌋ else ⌊x⌋ + 1

/-- Source gaptooth_PI_vectorised.  `np.stack(u0_patch)` is embedded as the
grid reading entry `j` of patch `k`; `spline_slopes` is the opaque
collaborator `slopeEst` (modelled from the spec: the `RBF` interpolator the
source imports is not under `src/`, and the spec requires of the slope
estimator only its contract, a pair of slope arrays produced from the
current state).  The outer loop runs `int(np.round(T / T_patch))` times,
rebuilding the slopes once per iteration; the inner loop runs
`int(np.round(T_patch / Dt))` projective cycles with those fixed slopes;
`Int.toNat` mirrors the emptiness of `range(1, n+1)` for `n ≤ 0`. -/
def gaptooth_PI_vectorised (expf : ℚ → ℚ) (slopeEst : Grid → (ℕ → ℚ) × (ℕ → ℚ))
    (u0_patch : List (List ℚ)) (dx dt Dt : ℚ) (K : ℕ) (T_patch T : ℚ)
    (p : BratuParams) : List (List ℚ) :=
  let t := u0_patch.length
  let m := u0_patch.headI.length
  let U0 : Grid := fun k j => (u0_patch.getD k []).getD j 0
  let n_patch_steps := (np_round (T / T_patch)).toNat
  let n_PI_steps := (np_round (T_patch / Dt)).toNat
  let Ufin := (List.range n_patch_steps).foldl
    (fun U _ =>
      let s := slopeEst U
      (List.range n_PI_steps).foldl
        (fun V _ => projective_microcycle expf t m V dx dt Dt K s.1 s.2 p) U)
    U0
  (List.range t).map (fun k => (List.range m).map (fun j => Ufin k j))

/-- The `eval_counter` decorator from the source: the wrapped function
increments the closed-over counter by one on every call and exposes the new
counter value as `wrapper.count`.  The mutable closure cell is embedded as
explicit state passing: calling the wrapper maps counter `count` to
`count + 1` and returns the result of the wrapped function. -/
def eval_counter {α β : Type} (f : α → β) : ℕ → α → ℕ × β :=
  fun count a => (count + 1, f a)

/-- Source psiPatch: convert the flat vector to patch form, evolve it by
`gaptooth_PI_vectorised` over horizon `T_psi`, and return
`u0_numpy - toNumpyArray(u_new_patch)` (elementwise numpy subtraction),
wrapped in `eval_counter`. -/
def psiPatch (expf : ℚ → ℚ) (slopeEst : Grid → (ℕ → ℚ) × (ℕ → ℚ))
    (x_plot_array : List (List ℚ)) (dx dt Dt : ℚ) (K : ℕ) (T_patch T_psi : ℚ)
    (p : BratuParams) : ℕ → List ℚ → ℕ × List ℚ :=
  eval_counter (fun u0_numpy =>
    List.zipWith (fun a b => a - b) u0_numpy
      (toNumpyArray (gaptooth_PI_vectorised expf slopeEst
        (toPatch x_plot_array u0_numpy) dx dt Dt K T_patch T_psi p)))

/-- Iterated application of `euler_step`, used to express the claim-side
reading of the microcycle: the state after `n` micro Euler steps. -/
def euler_iter (expf : ℚ → ℚ) (t m : ℕ) (dx dt : ℚ) (ls rs : ℕ → ℚ)
    (p : BratuParams) (n : ℕ) (U : Grid) : Grid :=
  (fun V => euler_step expf t m V dx dt ls rs p)^[n] U

/-- The claim-side reading of one outer iteration of the driver (spec,
section 4.4 step 3): one SlopeEstimator call on the current state, then
`nPI` ProjectiveCycle calls all using that same fixed slope pair. -/
def patch_outer_step (expf : ℚ → ℚ) (slopeEst : Grid → (ℕ → ℚ) × (ℕ → ℚ))
    (t m : ℕ) (dx dt Dt : ℚ) (K : ℕ) (p : BratuParams) (nPI : ℕ) : Grid → Grid :=
  fun U =>
    (fun V => projective_microcycle expf t m V dx dt Dt K (slopeEst U).1 (slopeEst U).2 p)^[nPI] U

/-- The comparison stencil named by claim C5: a non-periodic, one-sided
truncated central difference, dropping the wrapped-around neighbour at the
first and last micro index instead of reading across the array boundary. -/
def rhs_truncated (expf : ℚ → ℚ) (m : ℕ) (U : Grid) (dx : ℚ) (p : BratuParams) : Grid :=
  fun k j =>
    ((if j + 1 < m then U k (j + 1) else 0) - 2 * U k j
        + (if 1 ≤ j then U k (j - 1) else 0)) / dx ^ 2
      + p.lam * expf (U k j)

/-- The `euler_step` variant named by claim C5: identical to `euler_step`
but with the truncated stencil in place of the periodic one. -/
def euler_step_truncated (expf : ℚ → ℚ) (t m : ℕ) (U : Grid) (dx dt : ℚ)
    (ls rs : ℕ → ℚ) (p : BratuParams) : Grid :=
  applyBCs t m dx ls rs (fun k j => U k j + dt * rhs_truncated expf m U dx p k j)

/-!
Helper lemmas.  `foldl_range_const` relates the literal source loops
(`for _ in range(n)`) to `Function.iterate`; the `applyBCs_` lemmas evaluate
the boundary-condition block pointwise on each region of the array.
-/

lemma foldl_range_const {α : Type} (f : α → α) (n : ℕ) (x : α) :
    (List.range n).foldl (fun a _ => f a) x = f^[n] x := by
  induction n with
  | zero => simp
  | succ n ih =>
      rw [List.range_succ, List.foldl_append, ih, List.foldl_cons, List.foldl_nil,
        Function.iterate_succ_apply']

lemma applyBCs_interior (t m : ℕ) (dx : ℚ) (ls rs : ℕ → ℚ) (U : Grid) (k j : ℕ)
    (h0 : j ≠ 0) (h1 : j ≠ m - 1) :
    applyBCs t m dx ls rs U k j = U k j := by
  simp only [applyBCs, bcNeumannRight, bcNeumannLeft, bcDirichlet]
  split_ifs <;> first | rfl | (exfalso ; omega) | (exfalso ; simp_all <;> omega)

lemma applyBCs_corner00 (t m : ℕ) (dx : ℚ) (ls rs : ℕ → ℚ) (U : Grid)
    (hm : 2 ≤ m) :
    applyBCs t m dx ls rs U 0 0 = 0 := by
  simp only [applyBCs, bcNeumannRight, bcNeumannLeft, bcDirichlet]
  split_ifs <;> first | rfl | (exfalso ; omega) | (exfalso ; simp_all <;> omega)

lemma applyBCs_cornerLast (t m : ℕ) (dx : ℚ) (ls rs : ℕ → ℚ) (U : Grid)
    (hm : 2 ≤ m) :
    applyBCs t m dx ls rs U (t - 1) (m - 1) = 0 := by
  simp only [applyBCs, bcNeumannRight, bcNeumannLeft, bcDirichlet]
  split_ifs <;> first | rfl | (exfalso ; omega) | (exfalso ; simp_all <;> omega)

lemma applyBCs_left_edge (t m : ℕ) (dx : ℚ) (ls rs : ℕ → ℚ) (U : Grid) (k : ℕ)
    (hm : 3 ≤ m) (hk1 : 1 ≤ k) (hkt : k < t) :
    applyBCs t m dx ls rs U k 0 = U k 1 - ls k * dx := by
  simp only [applyBCs, bcNeumannRight, bcNeumannLeft, bcDirichlet]
  split_ifs <;> first | rfl | (exfalso ; omega) | (exfalso ; simp_all <;> omega)

lemma applyBCs_right_edge (t m : ℕ) (dx : ℚ) (ls rs : ℕ → ℚ) (U : Grid) (k : ℕ)
    (hm : 3 ≤ m) (hkt : k < t - 1) :
    applyBCs t m dx ls rs U k (m - 1) = U k (m - 2) + rs k * dx := by
  simp only [applyBCs, bcNeumannRight, bcNeumannLeft, bcDirichlet]
  split_ifs <;> first | rfl | (exfalso ; omega) | (exfalso ; simp_all <;> omega)

lemma applyBCs_left_pass (t m : ℕ) (dx : ℚ) (ls rs : ℕ → ℚ) (U : Grid) (k : ℕ)
    (hm : 3 ≤ m) (hk0 : k ≠ 0) (hkt : t ≤ k) :
    applyBCs t m dx ls rs U k 0 = U k 0 := by
  simp only [applyBCs, bcNeumannRight, bcNeumannLeft, bcDirichlet]
  split_ifs <;> first | rfl | (exfalso ; omega) | (exfalso ; simp_all <;> omega)

lemma applyBCs_right_pass (t m : ℕ) (dx : ℚ) (ls rs : ℕ → ℚ) (U : Grid) (k : ℕ)
    (hm : 3 ≤ m) (hkt : t - 1 < k) :
    applyBCs t m dx ls rs U k (m - 1) = U k (m - 1) := by
  simp only [applyBCs, bcNeumannRight, bcNeumannLeft, bcDirichlet]
  split_ifs <;> first | rfl | (exfalso ; omega) | (exfalso ; simp_all <;> omega)

lemma applyBCs_idem (t m : ℕ) (dx : ℚ) (ls rs : ℕ → ℚ) (X : Grid)
    (hm : 3 ≤ m) :
    applyBCs t m dx ls rs (applyBCs t m dx ls rs X) = applyBCs t m dx ls rs X := by
  funext k j
  by_cases hj0 : j = 0
  · subst hj0
    by_cases hk0 : k = 0
    · subst hk0
      rw [applyBCs_corner00 t m dx ls rs _ (by omega),
        applyBCs_corner00 t m dx ls rs X (by omega)]
    · by_cases hkt : k < t
      · have h1 : applyBCs t m dx ls rs X k 1 = X k 1 :=
          applyBCs_interior t m dx ls rs X k 1 (by omega) (by omega)
        rw [applyBCs_left_edge t m dx ls rs _ k hm (by omega) hkt, h1,
          applyBCs_left_edge t m dx ls rs X k hm (by omega) hkt]
      · rw [applyBCs_left_pass t m dx ls rs _ k hm hk0 (by omega)]
  · by_cases hjm : j = m - 1
    · subst hjm
      by_cases hkt : k < t - 1
      · have h2 : applyBCs t m dx ls rs X k (m - 2) = X k (m - 2) :=
          applyBCs_interior t m dx ls rs X k (m - 2) (by omega) (by omega)
        rw [applyBCs_right_edge t m dx ls rs _ k hm hkt, h2,
          applyBCs_right_edge t m dx ls rs X k hm hkt]
      · by_cases hk : k = t - 1
        · rw [hk, applyBCs_cornerLast t m dx ls rs _ (by omega),
            applyBCs_cornerLast t m dx ls rs X (by omega)]
        · rw [applyBCs_right_pass t m dx ls rs _ k hm (by omega)]
    · rw [applyBCs_interior t m dx ls rs _ k j hj0 hjm]

lemma euler_foldl_eq_iterate (expf : ℚ → ℚ) (t m : ℕ) (dx dt : ℚ) (ls rs : ℕ → ℚ)
    (p : BratuParams) (n : ℕ) (U : Grid) :
    (List.range n).foldl (fun V _ => euler_step expf t m V dx dt ls rs p) U
      = euler_iter expf t m dx dt ls rs p n U :=
  foldl_range_const _ n U

lemma projective_microcycle_unfolded (expf : ℚ → ℚ) (t m : ℕ) (U : Grid)
    (dx dt Dt : ℚ) (K : ℕ) (ls rs : ℕ → ℚ) (p : BratuParams) :
    projective_microcycle expf t m U dx dt Dt K ls rs p
      = applyBCs t m dx ls rs (fun k j =>
          euler_step expf t m (euler_iter expf t m dx dt ls rs p (K - 1) U) dx dt ls rs p k j
            + (Dt - (K : ℚ) * dt)
              * ((euler_step expf t m (euler_iter expf t m dx dt ls rs p (K - 1) U) dx dt ls rs p k j
                  - euler_iter expf t m dx dt ls rs p (K - 1) U k j) / dt)) := by
  simp only [projective_microcycle]
  rw [euler_foldl_eq_iterate]

lemma applyBCs_outer_corners (t m : ℕ) (dx : ℚ) (ls rs : ℕ → ℚ) (X : Grid)
    (ht : 1 ≤ t) (hm : 1 ≤ m) (hvalid : 2 ≤ m ∨ t = 1) :
    applyBCs t m dx ls rs X 0 0 = 0 ∧ applyBCs t m dx ls rs X (t - 1) (m - 1) = 0 := by
  rcases hvalid with h2 | h1
  · exact ⟨applyBCs_corner00 t m dx ls rs X h2, applyBCs_cornerLast t m dx ls rs X h2⟩
  · subst h1
    constructor
    · simp only [applyBCs, bcNeumannRight, bcNeumannLeft, bcDirichlet]
      split_ifs <;> first | rfl | (exfalso ; omega) | (exfalso ; simp_all <;> omega)
    · simp only [applyBCs, bcNeumannRight, bcNeumannLeft, bcDirichlet]
      split_ifs <;> first | rfl | (exfalso ; omega) | (exfalso ; simp_all <;> omega)

/-- C1: for every patch set, spacings, projective step, count K >= 1, slopes
and params, `projective_microcycle` applies the Euler micro step K-1 times,
then one more step keeping the pre-step state and post-step state, and
returns the extrapolation U_last + (Dt - K*dt) * (U_last - U_prev) / dt with
the boundary conditions re-imposed; when K = 1 the preliminary iteration is
empty and U_prev is the input U itself. -/
theorem projective_microcycle_structure (expf : ℚ → ℚ) (t m : ℕ) (U : Grid)
    (dx dt Dt : ℚ) (K : ℕ) (ls rs : ℕ → ℚ) (p : BratuParams) (hK : 1 ≤ K) :
    projective_microcycle expf t m U dx dt Dt K ls rs p
      = applyBCs t m dx ls rs (fun k j =>
          euler_step expf t m (euler_iter expf t m dx dt ls rs p (K - 1) U) dx dt ls rs p k j
            + (Dt - (K : ℚ) * dt)
              * ((euler_step expf t m (euler_iter expf t m dx dt ls rs p (K - 1) U) dx dt ls rs p k j
                  - euler_iter expf t m dx dt ls rs p (K - 1) U k j) / dt))
    ∧ (K = 1 → euler_iter expf t m dx dt ls rs p (K - 1) U = U) := by
  constructor
  · exact projective_microcycle_unfolded expf t m U dx dt Dt K ls rs p
  · intro h1
    subst h1
    simp [euler_iter]

theorem projective_microcycle_structure_witness :
    1 ≤ 1 ∧
      (projective_microcycle (fun _ => 1) 1 1 (fun _ _ => 1) 1 1 1 1 (fun _ => 1) (fun _ => 1) ⟨1⟩
          = applyBCs 1 1 1 (fun _ => 1) (fun _ => 1) (fun k j =>
              euler_step (fun _ => 1) 1 1
                  (euler_iter (fun _ => 1) 1 1 1 1 (fun _ => 1) (fun _ => 1) ⟨1⟩ (1 - 1) (fun _ _ => 1))
                  1 1 (fun _ => 1) (fun _ => 1) ⟨1⟩ k j
                + (1 - ((1 : ℕ) : ℚ) * 1)
                  * ((euler_step (fun _ => 1) 1 1
                        (euler_iter (fun _ => 1) 1 1 1 1 (fun _ => 1) (fun _ => 1) ⟨1⟩ (1 - 1) (fun _ _ => 1))
                        1 1 (fun _ => 1) (fun _ => 1) ⟨1⟩ k j
                      - euler_iter (fun _ => 1) 1 1 1 1 (fun _ => 1) (fun _ => 1) ⟨1⟩ (1 - 1) (fun _ _ => 1) k j) / 1))
        ∧ (1 = 1 → euler_iter (fun _ => 1) 1 1 1 1 (fun _ => 1) (fun _ => 1) ⟨1⟩ (1 - 1) (fun _ _ => 1)
            = fun _ _ => 1)) :=
  ⟨le_refl 1,
    projective_microcycle_structure (fun _ => 1) 1 1 (fun _ _ => 1) 1 1 1 1
      (fun _ => 1) (fun _ => 1) ⟨1⟩ (le_refl 1)⟩

/-- C2: immediately after any euler_step call or any projective_microcycle
call, the leftmost value of patch 0 and the rightmost value of the last
patch are exactly 0, for every (valid) configuration; shapes with m = 1 and
more than one tooth are excluded because there the source raises an
IndexError (`U_new[1:, 1]` is out of bounds) and returns nothing. -/
theorem outer_dirichlet_invariant (expf : ℚ → ℚ) (t m : ℕ) (U : Grid)
    (dx dt Dt : ℚ) (K : ℕ) (ls rs : ℕ → ℚ) (p : BratuParams)
    (ht : 1 ≤ t) (hm : 1 ≤ m) (hvalid : 2 ≤ m ∨ t = 1) :
    (euler_step expf t m U dx dt ls rs p 0 0 = 0 ∧
      euler_step expf t m U dx dt ls rs p (t - 1) (m - 1) = 0) ∧
    (projective_microcycle expf t m U dx dt Dt K ls rs p 0 0 = 0 ∧
      projective_microcycle expf t m U dx dt Dt K ls rs p (t - 1) (m - 1) = 0) := by
  constructor
  · exact applyBCs_outer_corners t m dx ls rs _ ht hm hvalid
  · exact applyBCs_outer_corners t m dx ls rs _ ht hm hvalid

theorem outer_dirichlet_invariant_witness :
    (1 ≤ 2 ∧ 1 ≤ 3 ∧ (2 ≤ 3 ∨ (2 : ℕ) = 1)) ∧
      ((euler_step (fun _ => 1) 2 3 (fun _ _ => 1) 1 1 (fun _ => 1) (fun _ => 1) ⟨1⟩ 0 0 = 0 ∧
        euler_step (fun _ => 1) 2 3 (fun _ _ => 1) 1 1 (fun _ => 1) (fun _ => 1) ⟨1⟩ (2 - 1) (3 - 1) = 0) ∧
      (projective_microcycle (fun _ => 1) 2 3 (fun _ _ => 1) 1 1 1 2 (fun _ => 1) (fun _ => 1) ⟨1⟩ 0 0 = 0 ∧
        projective_microcycle (fun _ => 1) 2 3 (fun _ _ => 1) 1 1 1 2 (fun _ => 1) (fun _ => 1) ⟨1⟩ (2 - 1) (3 - 1) = 0)) :=
  ⟨⟨by decide, by decide, Or.inl (by decide)⟩,
    outer_dirichlet_invariant (fun _ => 1) 2 3 (fun _ _ => 1) 1 1 1 2
      (fun _ => 1) (fun _ => 1) ⟨1⟩ (by decide) (by decide) (Or.inl (by decide))⟩

lemma applyBCs_internal_edges (t m : ℕ) (dx : ℚ) (ls rs : ℕ → ℚ) (X : Grid) (k : ℕ)
    (hm : 3 ≤ m) (hk1 : 1 ≤ k) (hkt : k + 1 < t) :
    applyBCs t m dx ls rs X k 0 = applyBCs t m dx ls rs X k 1 - ls k * dx ∧
    applyBCs t m dx ls rs X k (m - 1) = applyBCs t m dx ls rs X k (m - 2) + rs k * dx := by
  constructor
  · rw [applyBCs_left_edge t m dx ls rs X k hm hk1 (by omega),
      applyBCs_interior t m dx ls rs X k 1 (by omega) (by omega)]
  · rw [applyBCs_right_edge t m dx ls rs X k hm (by omega),
      applyBCs_interior t m dx ls rs X k (m - 2) (by omega) (by omega)]

/-- C3 (counterexample): with exactly two micro points per patch the claimed
left-edge identity fails after an euler_step call: for three teeth, two
micro points, zero initial data, dx = dt = 1, zero left slopes and unit
right slopes, the returned array has U[1,0] = 0 but U[1,1] - ls(1)*dx = 1,
because the right-edge write `U_new[:-1,-1] = U_new[:-1,-2] + ...` happens
after, and aliases, the column read by the left-edge write. -/
theorem internal_edge_invariant_fails_two_micro :
    ¬ (euler_step (fun _ => 0) 3 2 (fun _ _ => 0) 1 1 (fun _ => 0) (fun _ => 1) ⟨0⟩ 1 0
        = euler_step (fun _ => 0) 3 2 (fun _ _ => 0) 1 1 (fun _ => 0) (fun _ => 1) ⟨0⟩ 1 1
          - 0 * 1) := by
  norm_num [euler_step, applyBCs, bcNeumannRight, bcNeumannLeft, bcDirichlet, rhs_vectorised]

/-- C3 (amended): for every patch index k with 0 < k < n_teeth - 1, and at
least three micro points per patch, immediately after an euler_step or
projective_microcycle call the returned array satisfies
U[k,0] = U[k,1] - left_slope[k]*dx and U[k,m-1] = U[k,m-2] + right_slope[k]*dx
exactly. -/
theorem internal_edge_invariant_three_micro (expf : ℚ → ℚ) (t m : ℕ) (U : Grid)
    (dx dt Dt : ℚ) (K : ℕ) (ls rs : ℕ → ℚ) (p : BratuParams) (k : ℕ)
    (hm : 3 ≤ m) (hk1 : 1 ≤ k) (hkt : k + 1 < t) :
    (euler_step expf t m U dx dt ls rs p k 0
        = euler_step expf t m U dx dt ls rs p k 1 - ls k * dx ∧
      euler_step expf t m U dx dt ls rs p k (m - 1)
        = euler_step expf t m U dx dt ls rs p k (m - 2) + rs k * dx) ∧
    (projective_microcycle expf t m U dx dt Dt K ls rs p k 0
        = projective_microcycle expf t m U dx dt Dt K ls rs p k 1 - ls k * dx ∧
      projective_microcycle expf t m U dx dt Dt K ls rs p k (m - 1)
        = projective_microcycle expf t m U dx dt Dt K ls rs p k (m - 2) + rs k * dx) := by
  constructor
  · exact applyBCs_internal_edges t m dx ls rs _ k hm hk1 hkt
  · rw [projective_microcycle_unfolded]
    exact applyBCs_internal_edges t m dx ls rs _ k hm hk1 hkt

theorem internal_edge_invariant_three_micro_witness :
    (3 ≤ 3 ∧ 1 ≤ 1 ∧ 1 + 1 < 3) ∧
      ((euler_step (fun _ => 1) 3 3 (fun _ _ => 1) 1 1 (fun _ => 1) (fun _ => 1) ⟨1⟩ 1 0
          = euler_step (fun _ => 1) 3 3 (fun _ _ => 1) 1 1 (fun _ => 1) (fun _ => 1) ⟨1⟩ 1 1
            - (fun _ => (1 : ℚ)) 1 * 1 ∧
        euler_step (fun _ => 1) 3 3 (fun _ _ => 1) 1 1 (fun _ => 1) (fun _ => 1) ⟨1⟩ 1 (3 - 1)
          = euler_step (fun _ => 1) 3 3 (fun _ _ => 1) 1 1 (fun _ => 1) (fun _ => 1) ⟨1⟩ 1 (3 - 2)
            + (fun _ => (1 : ℚ)) 1 * 1) ∧
      (projective_microcycle (fun _ => 1) 3 3 (fun _ _ => 1) 1 1 1 2 (fun _ => 1) (fun _ => 1) ⟨1⟩ 1 0
          = projective_microcycle (fun _ => 1) 3 3 (fun _ _ => 1) 1 1 1 2 (fun _ => 1) (fun _ => 1) ⟨1⟩ 1 1
            - (fun _ => (1 : ℚ)) 1 * 1 ∧
        projective_microcycle (fun _ => 1) 3 3 (fun _ _ => 1) 1 1 1 2 (fun _ => 1) (fun _ => 1) ⟨1⟩ 1 (3 - 1)
          = projective_microcycle (fun _ => 1) 3 3 (fun _ _ => 1) 1 1 1 2 (fun _ => 1) (fun _ => 1) ⟨1⟩ 1 (3 - 2)
            + (fun _ => (1 : ℚ)) 1 * 1)) :=
  ⟨⟨by decide, by decide, by decide⟩,
    internal_edge_invariant_three_micro (fun _ => 1) 3 3 (fun _ _ => 1) 1 1 1 2
      (fun _ => 1) (fun _ => 1) ⟨1⟩ 1 (by decide) (by decide) (by decide)⟩

/-- C6 (counterexample): with exactly two micro points per patch,
projective_microcycle with K = 1 and Dt = dt differs from a single
euler_step: re-imposing the boundary conditions is not idempotent there,
because the left-edge write reads column 1, which is also the right-edge
column. -/
theorem K1_cycle_eq_euler_fails_two_micro :
    ¬ (projective_microcycle (fun _ => 0) 3 2 (fun _ _ => 0) 1 1 1 1 (fun _ => 0) (fun _ => 1) ⟨0⟩ 1 1
        = euler_step (fun _ => 0) 3 2 (fun _ _ => 0) 1 1 (fun _ => 0) (fun _ => 1) ⟨0⟩ 1 1) := by
  norm_num [projective_microcycle, euler_step, applyBCs, bcNeumannRight, bcNeumannLeft,
    bcDirichlet, rhs_vectorised]

/-- C6 (amended): with at least three micro points per patch,
projective_microcycle called with K = 1 and Dt = dt returns exactly the same
grid as a single euler_step call with the same arguments: the extrapolation
term vanishes and re-imposing the boundary conditions is idempotent. -/
theorem K1_cycle_eq_euler_three_micro (expf : ℚ → ℚ) (t m : ℕ) (U : Grid)
    (dx dt : ℚ) (ls rs : ℕ → ℚ) (p : BratuParams) (hm : 3 ≤ m) :
    projective_microcycle expf t m U dx dt dt 1 ls rs p
      = euler_step expf t m U dx dt ls rs p := by
  rw [projective_microcycle_unfolded]
  simp only [Nat.cast_one, one_mul, sub_self, zero_mul, add_zero, Nat.sub_self,
    euler_iter, Function.iterate_zero, id_eq]
  exact applyBCs_idem t m dx ls rs
    (fun k j => U k j + dt * rhs_vectorised expf m U dx p k j) hm

theorem K1_cycle_eq_euler_three_micro_witness :
    3 ≤ 3 ∧
      projective_microcycle (fun _ => 1) 2 3 (fun _ _ => 1) 1 1 1 1 (fun _ => 1) (fun _ => 1) ⟨1⟩
        = euler_step (fun _ => 1) 2 3 (fun _ _ => 1) 1 1 (fun _ => 1) (fun _ => 1) ⟨1⟩ :=
  ⟨by decide,
    K1_cycle_eq_euler_three_micro (fun _ => 1) 2 3 (fun _ _ => 1) 1 1
      (fun _ => 1) (fun _ => 1) ⟨1⟩ (by decide)⟩

lemma applyBCs_congr_interior (t m : ℕ) (dx : ℚ) (ls rs : ℕ → ℚ) (X Y : Grid)
    (hm : 3 ≤ m) (hXY : ∀ k j, 1 ≤ j → j + 2 ≤ m → X k j = Y k j) :
    gridEqOn t m (applyBCs t m dx ls rs X) (applyBCs t m dx ls rs Y) := by
  intro k hk j hj
  by_cases hj0 : j = 0
  · subst hj0
    by_cases hk0 : k = 0
    · subst hk0
      rw [applyBCs_corner00 t m dx ls rs X (by omega),
        applyBCs_corner00 t m dx ls rs Y (by omega)]
    · rw [applyBCs_left_edge t m dx ls rs X k hm (by omega) hk,
        applyBCs_left_edge t m dx ls rs Y k hm (by omega) hk,
        hXY k 1 (by omega) (by omega)]
  · by_cases hjm : j = m - 1
    · subst hjm
      by_cases hkt : k < t - 1
      · rw [applyBCs_right_edge t m dx ls rs X k hm hkt,
          applyBCs_right_edge t m dx ls rs Y k hm hkt,
          hXY k (m - 2) (by omega) (by omega)]
      · have hk2 : k = t - 1 := by omega
        rw [hk2, applyBCs_cornerLast t m dx ls rs X (by omega),
          applyBCs_cornerLast t m dx ls rs Y (by omega)]
    · rw [applyBCs_interior t m dx ls rs X k j hj0 hjm,
        applyBCs_interior t m dx ls rs Y k j hj0 hjm,
        hXY k j (by omega) (by omega)]

lemma rhs_agree_interior (expf : ℚ → ℚ) (m : ℕ) (U : Grid) (dx : ℚ)
    (p : BratuParams) (k j : ℕ) (hj1 : 1 ≤ j) (hj2 : j + 2 ≤ m) :
    rhs_vectorised expf m U dx p k j = rhs_truncated expf m U dx p k j := by
  simp only [rhs_vectorised, rhs_truncated]
  have h1 : (j + 1) % m = j + 1 := Nat.mod_eq_of_lt (by omega)
  have h2 : (j + m - 1) % m = j - 1 := by
    have e : j + m - 1 = j - 1 + m := by omega
    rw [e, Nat.add_mod_right]
    exact Nat.mod_eq_of_lt (by omega)
  rw [h1, h2, if_pos (by omega : j + 1 < m), if_pos hj1]

/-- C5 (counterexample): with exactly two micro points per patch the
periodic-stencil euler_step and the truncated-stencil variant disagree: for
three teeth, two micro points, all-ones initial data, dx = dt = 1, lambda = 0
and zero slopes, the wrapped-around stencil value at column 1 is read by the
left-edge Neumann write before being overwritten, and reaches the returned
array at position (1, 0). -/
theorem truncated_stencil_equiv_fails_two_micro :
    ¬ (euler_step (fun _ => 0) 3 2 (fun _ _ => 1) 1 1 (fun _ => 0) (fun _ => 0) ⟨0⟩ 1 0
        = euler_step_truncated (fun _ => 0) 3 2 (fun _ _ => 1) 1 1 (fun _ => 0) (fun _ => 0) ⟨0⟩ 1 0) := by
  norm_num [euler_step, euler_step_truncated, applyBCs, bcNeumannRight, bcNeumannLeft,
    bcDirichlet, rhs_vectorised, rhs_truncated]

/-- C5 (amended): with at least three micro points per patch, euler_step
returns the same array as the variant using the non-periodic one-sided
truncated stencil: every position whose stencil wraps around is overwritten
by a Dirichlet or Neumann boundary condition before it can be observed. -/
theorem truncated_stencil_equiv_three_micro (expf : ℚ → ℚ) (t m : ℕ) (U : Grid)
    (dx dt : ℚ) (ls rs : ℕ → ℚ) (p : BratuParams) (hm : 3 ≤ m) :
    gridEqOn t m (euler_step expf t m U dx dt ls rs p)
      (euler_step_truncated expf t m U dx dt ls rs p) := by
  apply applyBCs_congr_interior t m dx ls rs _ _ hm
  intro k j hj1 hj2
  show U k j + dt * rhs_vectorised expf m U dx p k j
      = U k j + dt * rhs_truncated expf m U dx p k j
  rw [rhs_agree_interior expf m U dx p k j hj1 hj2]

theorem truncated_stencil_equiv_three_micro_witness :
    3 ≤ 3 ∧
      gridEqOn 2 3 (euler_step (fun _ => 1) 2 3 (fun _ _ => 1) 1 1 (fun _ => 1) (fun _ => 1) ⟨1⟩)
        (euler_step_truncated (fun _ => 1) 2 3 (fun _ _ => 1) 1 1 (fun _ => 1) (fun _ => 1) ⟨1⟩) :=
  ⟨by decide,
    truncated_stencil_equiv_three_micro (fun _ => 1) 2 3 (fun _ _ => 1) 1 1
      (fun _ => 1) (fun _ => 1) ⟨1⟩ (by decide)⟩

lemma np_round_zero_div_one : np_round ((0 : ℚ) / 1) = 0 := by
  norm_num [np_round]

lemma np_round_one_div_one : np_round ((1 : ℚ) / 1) = 1 := by
  norm_num [np_round]

/-- C4: gaptooth_PI_vectorised computes n_patch_steps = round(T / T_patch)
and n_PI_cycles = round(T_patch / Dt) with numpy rounding (half to even),
and performs exactly n_patch_steps outer iterations, each consisting of one
slope-estimator call on the current state followed by n_PI_cycles
projective_microcycle calls that all use that same fixed slope pair; the
nonnegativity hypotheses state that the rounded counts are genuine iteration
counts (for a negative rounded value the Python loop body runs zero times),
and the nonzero hypotheses exclude the division-by-zero configurations on
which the source raises. -/
theorem gaptooth_driver_structure (expf : ℚ → ℚ) (sE : Grid → (ℕ → ℚ) × (ℕ → ℚ))
    (u0_patch : List (List ℚ)) (dx dt Dt : ℚ) (K : ℕ) (T_patch T : ℚ) (p : BratuParams)
    (hne : u0_patch ≠ []) (huni : ∀ l ∈ u0_patch, l.length = u0_patch.headI.length)
    (hTp : T_patch ≠ 0) (hDt : Dt ≠ 0)
    (hP : 0 ≤ np_round (T / T_patch)) (hC : 0 ≤ np_round (T_patch / Dt)) :
    (gaptooth_PI_vectorised expf sE u0_patch dx dt Dt K T_patch T p
      = (List.range u0_patch.length).map (fun k =>
          (List.range u0_patch.headI.length).map (fun j =>
            (patch_outer_step expf sE u0_patch.length u0_patch.headI.length dx dt Dt K p
                ((np_round (T_patch / Dt)).toNat))^[(np_round (T / T_patch)).toNat]
              (fun k j => (u0_patch.getD k []).getD j 0) k j)))
    ∧ ((np_round (T / T_patch)).toNat : ℤ) = np_round (T / T_patch)
    ∧ ((np_round (T_patch / Dt)).toNat : ℤ) = np_round (T_patch / Dt) := by
  refine ⟨?_, Int.toNat_of_nonneg hP, Int.toNat_of_nonneg hC⟩
  simp only [gaptooth_PI_vectorised]
  have houter :
      (List.range ((np_round (T / T_patch)).toNat)).foldl
          (fun U _ =>
            (List.range ((np_round (T_patch / Dt)).toNat)).foldl
              (fun V _ => projective_microcycle expf u0_patch.length u0_patch.headI.length
                V dx dt Dt K (sE U).1 (sE U).2 p) U)
          (fun k j => (u0_patch.getD k []).getD j 0)
        = (List.range ((np_round (T / T_patch)).toNat)).foldl
            (fun U _ => patch_outer_step expf sE u0_patch.length u0_patch.headI.length
              dx dt Dt K p ((np_round (T_patch / Dt)).toNat) U)
            (fun k j => (u0_patch.getD k []).getD j 0) :=
    List.foldl_ext _ _ _ (fun U b hb => foldl_range_const _ _ _)
  rw [houter, foldl_range_const
    (patch_outer_step expf sE u0_patch.length u0_patch.headI.length dx dt Dt K p
      ((np_round (T_patch / Dt)).toNat))
    ((np_round (T / T_patch)).toNat) (fun k j => (u0_patch.getD k []).getD j 0)]

theorem gaptooth_driver_structure_witness :
    ([[(1 : ℚ)]] ≠ ([] : List (List ℚ)) ∧
      (∀ l ∈ [[(1 : ℚ)]], l.length = [[(1 : ℚ)]].headI.length) ∧
      (1 : ℚ) ≠ 0 ∧ (1 : ℚ) ≠ 0 ∧
      0 ≤ np_round ((0 : ℚ) / 1) ∧ 0 ≤ np_round ((1 : ℚ) / 1)) ∧
    ((gaptooth_PI_vectorised (fun _ => 1) (fun _ => (fun _ => 1, fun _ => 1)) [[(1 : ℚ)]]
        1 1 1 1 1 0 ⟨1⟩
      = (List.range [[(1 : ℚ)]].length).map (fun k =>
          (List.range [[(1 : ℚ)]].headI.length).map (fun j =>
            (patch_outer_step (fun _ => 1) (fun _ => (fun _ => 1, fun _ => 1))
                [[(1 : ℚ)]].length [[(1 : ℚ)]].headI.length 1 1 1 1 ⟨1⟩
                ((np_round ((1 : ℚ) / 1)).toNat))^[(np_round ((0 : ℚ) / 1)).toNat]
              (fun k j => ([[(1 : ℚ)]].getD k []).getD j 0) k j)))
    ∧ ((np_round ((0 : ℚ) / 1)).toNat : ℤ) = np_round ((0 : ℚ) / 1)
    ∧ ((np_round ((1 : ℚ) / 1)).toNat : ℤ) = np_round ((1 : ℚ) / 1)) :=
  ⟨⟨by decide, by decide, one_ne_zero, one_ne_zero,
      le_of_eq np_round_zero_div_one.symm,
      le_of_le_of_eq zero_le_one np_round_one_div_one.symm⟩,
    gaptooth_driver_structure (fun _ => 1) (fun _ => (fun _ => 1, fun _ => 1)) [[(1 : ℚ)]]
      1 1 1 1 1 0 ⟨1⟩ (by decide) (by decide) one_ne_zero one_ne_zero
      (le_of_eq np_round_zero_div_one.symm)
      (le_of_le_of_eq zero_le_one np_round_one_div_one.symm)⟩

lemma gaptooth_length (expf : ℚ → ℚ) (sE : Grid → (ℕ → ℚ) × (ℕ → ℚ))
    (u0_patch : List (List ℚ)) (dx dt Dt : ℚ) (K : ℕ) (T_patch T : ℚ) (p : BratuParams) :
    (gaptooth_PI_vectorised expf sE u0_patch dx dt Dt K T_patch T p).length
      = u0_patch.length := by
  simp [gaptooth_PI_vectorised]

/-- C8: when Dt < K*dt, projective_microcycle and gaptooth_PI_vectorised
perform no validation and raise no error: the microcycle is still exactly
the unguarded extrapolation formula, whose coefficient Dt - K*dt is then
negative (silent backward extrapolation), and the driver still returns a
full result (one list entry per input patch). -/
theorem no_validation_backward_extrapolation (expf : ℚ → ℚ)
    (sE : Grid → (ℕ → ℚ) × (ℕ → ℚ)) (t m : ℕ) (U : Grid) (dx dt Dt : ℚ) (K : ℕ)
    (ls rs : ℕ → ℚ) (p : BratuParams) (u0_patch : List (List ℚ)) (T_patch T : ℚ)
    (h : Dt < (K : ℚ) * dt) :
    Dt - (K : ℚ) * dt < 0 ∧
    projective_microcycle expf t m U dx dt Dt K ls rs p
      = applyBCs t m dx ls rs (fun k j =>
          euler_step expf t m (euler_iter expf t m dx dt ls rs p (K - 1) U) dx dt ls rs p k j
            + (Dt - (K : ℚ) * dt)
              * ((euler_step expf t m (euler_iter expf t m dx dt ls rs p (K - 1) U) dx dt ls rs p k j
                  - euler_iter expf t m dx dt ls rs p (K - 1) U k j) / dt)) ∧
    (gaptooth_PI_vectorised expf sE u0_patch dx dt Dt K T_patch T p).length
      = u0_patch.length :=
  ⟨by linarith, projective_microcycle_unfolded expf t m U dx dt Dt K ls rs p,
    gaptooth_length expf sE u0_patch dx dt Dt K T_patch T p⟩

theorem no_validation_backward_extrapolation_witness :
    (0 : ℚ) < ((1 : ℕ) : ℚ) * 1 ∧
      ((0 : ℚ) - ((1 : ℕ) : ℚ) * 1 < 0 ∧
      projective_microcycle (fun _ => 1) 1 1 (fun _ _ => 1) 1 1 0 1 (fun _ => 1) (fun _ => 1) ⟨1⟩
        = applyBCs 1 1 1 (fun _ => 1) (fun _ => 1) (fun k j =>
            euler_step (fun _ => 1) 1 1
                (euler_iter (fun _ => 1) 1 1 1 1 (fun _ => 1) (fun _ => 1) ⟨1⟩ (1 - 1) (fun _ _ => 1))
                1 1 (fun _ => 1) (fun _ => 1) ⟨1⟩ k j
              + ((0 : ℚ) - ((1 : ℕ) : ℚ) * 1)
                * ((euler_step (fun _ => 1) 1 1
                      (euler_iter (fun _ => 1) 1 1 1 1 (fun _ => 1) (fun _ => 1) ⟨1⟩ (1 - 1) (fun _ _ => 1))
                      1 1 (fun _ => 1) (fun _ => 1) ⟨1⟩ k j
                    - euler_iter (fun _ => 1) 1 1 1 1 (fun _ => 1) (fun _ => 1) ⟨1⟩ (1 - 1) (fun _ _ => 1) k j) / 1)) ∧
      (gaptooth_PI_vectorised (fun _ => 1) (fun _ => (fun _ => 1, fun _ => 1)) [[(1 : ℚ)]]
          1 1 0 1 1 1 ⟨1⟩).length = [[(1 : ℚ)]].length) :=
  ⟨by simp,
    no_validation_backward_extrapolation (fun _ => 1) (fun _ => (fun _ => 1, fun _ => 1))
      1 1 (fun _ _ => 1) 1 1 0 1 (fun _ => 1) (fun _ => 1) ⟨1⟩ [[(1 : ℚ)]] 1 1 (by simp)⟩

lemma flatMap_npBlock_length (L : ℕ) (P : List (List ℚ)) :
    (P.flatMap (npBlock L)).length = P.length * L := by
  induction P with
  | nil => simp
  | cons h tl ih =>
      simp only [List.flatMap_cons, List.length_append, npBlock, List.length_take,
        List.length_replicate, ih, List.length_cons, Nat.succ_mul]
      omega

lemma toNumpyArray_length (P : List (List ℚ)) :
    (toNumpyArray P).length = P.length * P.headI.length :=
  flatMap_npBlock_length P.headI.length P

lemma toPatch_length (xs : List (List ℚ)) (u : List ℚ) :
    (toPatch xs u).length = xs.length := by
  simp [toPatch]

lemma toPatch_headI_length (xs : List (List ℚ)) (u : List ℚ) (hx : 0 < xs.length)
    (hu : xs.headI.length ≤ u.length) :
    (toPatch xs u).headI.length = xs.headI.length := by
  simp only [toPatch]
  obtain ⟨n0, hn⟩ : ∃ n0, xs.length = n0 + 1 := ⟨xs.length - 1, by omega⟩
  rw [hn, List.range_succ_eq_map]
  simp only [List.map_cons, List.headI_cons, pySlice, Nat.zero_mul, List.drop_zero,
    Nat.one_mul, Nat.sub_zero, List.length_take]
  omega

lemma gaptooth_headI_length (expf : ℚ → ℚ) (sE : Grid → (ℕ → ℚ) × (ℕ → ℚ))
    (u0_patch : List (List ℚ)) (dx dt Dt : ℚ) (K : ℕ) (T_patch T : ℚ)
    (p : BratuParams) (ht : 0 < u0_patch.length) :
    (gaptooth_PI_vectorised expf sE u0_patch dx dt Dt K T_patch T p).headI.length
      = u0_patch.headI.length := by
  simp only [gaptooth_PI_vectorised]
  obtain ⟨n0, hn⟩ : ∃ n0, u0_patch.length = n0 + 1 := ⟨u0_patch.length - 1, by omega⟩
  rw [hn, List.range_succ_eq_map]
  simp

/-- C7: psiPatch, on a flat vector whose length is the number of patches
times the per-patch length, returns a vector of the same length equal to
u0 minus the flattened result of gaptooth_PI_vectorised applied to the patch
form of u0 over the horizon T_psi, and each call advances the externally
visible call counter by exactly one. -/
theorem psiPatch_residual_and_counter (expf : ℚ → ℚ) (sE : Grid → (ℕ → ℚ) × (ℕ → ℚ))
    (xs : List (List ℚ)) (dx dt Dt : ℚ) (K : ℕ) (Tp Tpsi : ℚ) (p : BratuParams)
    (u0 : List ℚ) (count : ℕ)
    (hx : 0 < xs.length) (hu : u0.length = xs.length * xs.headI.length) :
    ((psiPatch expf sE xs dx dt Dt K Tp Tpsi p count u0).1 = count + 1) ∧
    ((psiPatch expf sE xs dx dt Dt K Tp Tpsi p count u0).2.length = u0.length) ∧
    (∀ i, i < u0.length →
      (psiPatch expf sE xs dx dt Dt K Tp Tpsi p count u0).2.getD i 0
        = u0.getD i 0
          - (toNumpyArray (gaptooth_PI_vectorised expf sE (toPatch xs u0)
              dx dt Dt K Tp Tpsi p)).getD i 0) := by
  have hL : xs.headI.length ≤ u0.length := by
    rw [hu]
    exact Nat.le_mul_of_pos_left _ hx
  have hflat : (toNumpyArray (gaptooth_PI_vectorised expf sE (toPatch xs u0)
      dx dt Dt K Tp Tpsi p)).length = u0.length := by
    rw [toNumpyArray_length, gaptooth_length, gaptooth_headI_length]
    · rw [toPatch_length, toPatch_headI_length xs u0 hx hL, hu]
    · rw [toPatch_length]
      exact hx
  refine ⟨rfl, ?_, ?_⟩
  · simp only [psiPatch, eval_counter, List.length_zipWith, hflat, Nat.min_self]
  · intro i hi
    have hiz : i < (List.zipWith (fun a b => a - b) u0
        (toNumpyArray (gaptooth_PI_vectorised expf sE (toPatch xs u0)
          dx dt Dt K Tp Tpsi p))).length := by
      rw [List.length_zipWith, hflat]
      omega
    simp only [psiPatch, eval_counter]
    rw [List.getD_eq_getElem _ _ hiz, List.getElem_zipWith,
      List.getD_eq_getElem _ _ hi, List.getD_eq_getElem _ _ (by rw [hflat] ; exact hi)]

theorem psiPatch_residual_and_counter_witness :
    (0 < [[(1 : ℚ)]].length ∧ [(1 : ℚ)].length = [[(1 : ℚ)]].length * [[(1 : ℚ)]].headI.length) ∧
    (((psiPatch (fun _ => 1) (fun _ => (fun _ => 1, fun _ => 1)) [[(1 : ℚ)]]
        1 1 1 1 1 1 ⟨1⟩ 0 [(1 : ℚ)]).1 = 0 + 1) ∧
    ((psiPatch (fun _ => 1) (fun _ => (fun _ => 1, fun _ => 1)) [[(1 : ℚ)]]
        1 1 1 1 1 1 ⟨1⟩ 0 [(1 : ℚ)]).2.length = [(1 : ℚ)].length) ∧
    (∀ i, i < [(1 : ℚ)].length →
      (psiPatch (fun _ => 1) (fun _ => (fun _ => 1, fun _ => 1)) [[(1 : ℚ)]]
          1 1 1 1 1 1 ⟨1⟩ 0 [(1 : ℚ)]).2.getD i 0
        = [(1 : ℚ)].getD i 0
          - (toNumpyArray (gaptooth_PI_vectorised (fun _ => 1)
              (fun _ => (fun _ => 1, fun _ => 1)) (toPatch [[(1 : ℚ)]] [(1 : ℚ)])
              1 1 1 1 1 1 ⟨1⟩)).getD i 0)) :=
  ⟨⟨by decide, by decide⟩,
    psiPatch_residual_and_counter (fun _ => 1) (fun _ => (fun _ => 1, fun _ => 1)) [[(1 : ℚ)]]
      1 1 1 1 1 1 ⟨1⟩ [(1 : ℚ)] 0 (by decide) (by decide)⟩

lemma flatMap_npBlock_uniform (L : ℕ) (P : List (List ℚ))
    (hP : ∀ l ∈ P, l.length = L) :
    P.flatMap (npBlock L) = P.flatten := by
  induction P with
  | nil => simp
  | cons h tl ih =>
      have hh : h.length = L := hP h (List.mem_cons_self h tl)
      simp only [List.flatMap_cons, List.flatten_cons]
      rw [ih (fun l hl => hP l (List.mem_cons_of_mem h hl))]
      congr 1
      simp only [npBlock]
      rw [← hh, List.take_length, Nat.sub_self, List.replicate_zero, List.append_nil]

lemma toNumpyArray_uniform (P : List (List ℚ))
    (hP : ∀ l ∈ P, l.length = P.headI.length) :
    toNumpyArray P = P.flatten :=
  flatMap_npBlock_uniform P.headI.length P hP

lemma flatten_drop_take (L : ℕ) (P : List (List ℚ)) :
    ∀ i : ℕ, (∀ l ∈ P, l.length = L) → i < P.length →
      ((P.flatten).drop (i * L)).take L = P.getD i [] := by
  induction P with
  | nil =>
      intro i _ hi
      simp at hi
  | cons h tl ih =>
      intro i hP hi
      have hh : h.length = L := hP h (List.mem_cons_self h tl)
      cases i with
      | zero =>
          simp only [List.flatten_cons, Nat.zero_mul, List.drop_zero, List.getD_cons_zero]
          rw [← hh, List.take_left]
      | succ i =>
          have e : (i + 1) * L = h.length + i * L := by
            rw [hh]
            ring
          simp only [List.flatten_cons, List.getD_cons_succ]
          rw [e, ← List.drop_drop, List.drop_left]
          exact ih i (fun l hl => hP l (List.mem_cons_of_mem h hl)) (by simpa using hi)

/-- C9: for every nonempty list-of-arrays patch representation P of uniform
patch length, and any coordinate list with the same number of patches and
the same per-patch length, toPatch applied to toNumpyArray of P recovers P
elementwise; the empty representation is excluded because the source
indexes `u_patch[0]` and `x_plot_array[0]`, raising an IndexError there. -/
theorem toPatch_toNumpyArray_roundtrip (P xs : List (List ℚ))
    (hne : P ≠ []) (hlen : xs.length = P.length)
    (hP : ∀ l ∈ P, l.length = P.headI.length)
    (hxuni : ∀ l ∈ xs, l.length = P.headI.length) :
    toPatch xs (toNumpyArray P) = P := by
  have hxne : xs ≠ [] := by
    intro hc
    rw [hc] at hlen
    simp only [List.length_nil] at hlen
    exact hne (List.length_eq_zero.mp hlen.symm)
  have hx : xs.headI.length = P.headI.length := by
    obtain ⟨a, tl, rfl⟩ : ∃ a tl, xs = a :: tl := by
      cases xs with
      | nil => exact absurd rfl hxne
      | cons a tl => exact ⟨a, tl, rfl⟩
    exact hxuni a (List.mem_cons_self a tl)
  rw [toNumpyArray_uniform P hP]
  simp only [toPatch, hx, hlen]
  apply List.ext_getElem
  · simp
  · intro i h1 h2
    simp only [List.getElem_map, List.getElem_range, pySlice]
    have e : (i + 1) * P.headI.length - i * P.headI.length = P.headI.length := by
      rw [Nat.succ_mul, Nat.add_sub_cancel_left]
    rw [e, flatten_drop_take P.headI.length P i hP h2,
      List.getD_eq_getElem P [] h2]

theorem toPatch_toNumpyArray_roundtrip_witness :
    ([[(1 : ℚ), 2], [3, 4]] ≠ ([] : List (List ℚ)) ∧
      [[(5 : ℚ), 6], [7, 8]].length = [[(1 : ℚ), 2], [3, 4]].length ∧
      (∀ l ∈ [[(1 : ℚ), 2], [3, 4]], l.length = [[(1 : ℚ), 2], [3, 4]].headI.length) ∧
      (∀ l ∈ [[(5 : ℚ), 6], [7, 8]], l.length = [[(1 : ℚ), 2], [3, 4]].headI.length)) ∧
    toPatch [[(5 : ℚ), 6], [7, 8]] (toNumpyArray [[(1 : ℚ), 2], [3, 4]])
      = [[(1 : ℚ), 2], [3, 4]] :=
  ⟨⟨by decide, by decide, by decide, by decide⟩,
    toPatch_toNumpyArray_roundtrip [[(1 : ℚ), 2], [3, 4]] [[(5 : ℚ), 6], [7, 8]]
      (by decide) (by decide) (by decide) (by decide)⟩
